import Mathlib

/-!
Verification of the file-indexer terminal application (Go sources
`src/main.go` — the simple variant — and `src/src/file-indexer-tui/main.go`
— the rich variant).  The Go code is shallowly embedded: pure helper
functions of the `strings` / `path/filepath` packages are modelled on
`List Char`, the filesystem is modelled as an inductive tree of entries,
and the bubbletea `Update` function is modelled as an explicit transition
function on a state record.
-/

/- ## Models of the Go `strings` helpers used by the program.
Go strings are byte sequences; we model them as Lean `String`s and work on
their character lists.  All functions are executable. -/

/-- Does the character list `s` start with `p`?
Model of the prefix test underlying `strings.HasPrefix`. -/
def chStartsWith : List Char → List Char → Bool
  | _, [] => true
  | [], _ :: _ => false
  | a :: s, b :: p => a == b && chStartsWith s p

/-- Does `s` contain `pat` as a contiguous
subsequence?  Model of `strings.Contains`. -/
def chContainsSeq (s pat : List Char) : Bool :=
  match s with
  | [] => pat.isEmpty
  | _ :: t => chStartsWith s pat || chContainsSeq t pat

/-- Model of Go `strings.Contains(s, sub)`. -/
def goContains (s sub : String) : Bool :=
  chContainsSeq s.data sub.data

/-- Model of Go `strings.HasPrefix(s, p)`. -/
def goStartsWith (s p : String) : Bool :=
  chStartsWith s.data p.data

/-- Model of Go `strings.HasSuffix(s, suf)`: `s` ends with `suf` iff the
reversal of `s` starts with the reversal of `suf`. -/
def goEndsWith (s suf : String) : Bool :=
  chStartsWith s.data.reverse suf.data.reverse

/-- Model of Go `strings.TrimSuffix(s, suf)`: drops the suffix when
present, otherwise returns `s` unchanged. -/
def goTrimSuffix (s suf : String) : String :=
  if goEndsWith s suf then ⟨s.data.take (s.data.length - suf.data.length)⟩ else s

/-- Model of Go `strings.ToLower` (character-wise lowering; the sources
only ever filter ASCII directory names with it). -/
def goToLower (s : String) : String :=
  ⟨s.data.map Char.toLower⟩

/-- Model of `len(strings.TrimSpace(s)) == 0`: true iff every character of
`s` is whitespace (in particular for the empty string). -/
def goTrimSpaceEmpty (s : String) : Bool :=
  s.data.all Char.isWhitespace

/-- Model of Go `filepath.Join(a, b)` for the clean, non-empty,
non-slash-terminated directory paths the program passes to it. -/
def goJoin (a b : String) : String :=
  a ++ "/" ++ b

/- ### Lemmas about the string helpers. -/

theorem chStartsWith_append_self (p t : List Char) :
    chStartsWith (p ++ t) p = true := by
  induction p with
  | nil => simp [chStartsWith]
  | cons a p ih => simp [chStartsWith, ih]

theorem chStartsWith_iff (s p : List Char) :
    chStartsWith s p = true ↔ ∃ t, s = p ++ t := by
  constructor
  · intro h
    induction p generalizing s with
    | nil => exact ⟨s, rfl⟩
    | cons b p ih =>
      cases s with
      | nil => simp [chStartsWith] at h
      | cons a s =>
        simp only [chStartsWith, Bool.and_eq_true, beq_iff_eq] at h
        obtain ⟨rfl, h2⟩ := h
        obtain ⟨t, rfl⟩ := ih s h2
        exact ⟨t, rfl⟩
  · rintro ⟨t, rfl⟩
    exact chStartsWith_append_self p t

theorem chContainsSeq_append_mid (a b c : List Char) :
    chContainsSeq (a ++ (b ++ c)) b = true := by
  induction a with
  | nil =>
    cases b with
    | nil =>
      cases c with
      | nil => simp [chContainsSeq]
      | cons x c => simp [chContainsSeq, chStartsWith]
    | cons x b =>
      simp only [List.nil_append, List.cons_append, chContainsSeq]
      have : chStartsWith (x :: (b ++ c)) (x :: b) = true := by
        simpa using chStartsWith_append_self (x :: b) c
      simp [this]
  | cons x a ih =>
    cases b with
    | nil => simp [chContainsSeq, chStartsWith]
    | cons y b =>
      simp only [List.cons_append] at ih
      simp only [List.cons_append, chContainsSeq, List.append_eq, ih, Bool.or_true]

theorem goEndsWith_iff (s suf : String) :
    goEndsWith s suf = true ↔ ∃ p, s.data = p ++ suf.data := by
  unfold goEndsWith
  rw [chStartsWith_iff]
  constructor
  · rintro ⟨t, ht⟩
    refine ⟨t.reverse, ?_⟩
    have := congrArg List.reverse ht
    simpa using this
  · rintro ⟨p, hp⟩
    exact ⟨p.reverse, by simp [hp]⟩

/- ## Filesystem model.
A directory's contents are what `os.ReadDir` would return: `none` models a
read error (permission denied, deleted, not a directory), `some es` the
list of immediate children.  A directory entry carries the modification
time that `entry.Info()` reports (`0` models both the zero `time.Time`
and an `Info()` error, which the Go code also maps to the zero time). -/

inductive FsEntry : Type where
  | file (name : String) : FsEntry
  | dir (name : String) (modTime : Nat) (contents : Option (List FsEntry)) : FsEntry

/-- The name of an entry. -/
def FsEntry.entryName : FsEntry → String
  | .file n => n
  | .dir n _ _ => n

/-- Model of `entry.IsDir()`. -/
def FsEntry.isDirEntry : FsEntry → Bool
  | .file _ => false
  | .dir _ _ _ => true

/-- Model of `isDirEmpty` (rich variant, `src/src/file-indexer-tui/main.go`
lines 456-480): a read error counts as empty; otherwise the directory is
empty iff it contains no non-directory entry and every subdirectory is
itself empty.  The Go code runs two loops (first looking for a file, then
recursing into subdirectories); the single head recursion below computes
the same Boolean. -/
def isDirEmpty : Option (List FsEntry) → Bool
  | none => true
  | some [] => true
  | some (FsEntry.file _ :: _) => false
  | some (FsEntry.dir _ _ c :: rest) => isDirEmpty c && isDirEmpty (some rest)

/-- One list entry of the rich variant (`directoryItem` with the `modTime`
field, `src/src/file-indexer-tui/main.go` lines 81-86). -/
structure directoryItem : Type where
  name : String
  path : String
  isDir : Bool
  modTime : Nat
deriving DecidableEq

/-- The input of one `getDirectoryItems` call: the browsed path, the result
of `filepath.Dir` on it, and the `os.ReadDir` outcome. -/
structure DirInput : Type where
  path : String
  parent : String
  contents : Option (List FsEntry)

/-- The synthetic parent entry (name `..`, zero modification time). -/
def parentItem (d : DirInput) : directoryItem :=
  { name := "..", path := d.parent, isDir := true, modTime := 0 }

/-- The per-child admission test of the rich `getDirectoryItems` loop
(lines 411-440): only directories, with a non-empty, non-hidden,
non-all-whitespace name, that are not recursively empty, are kept. -/
def toDirItem (dirPath : String) : FsEntry → Option directoryItem
  | .file _ => none
  | .dir n mt c =>
    if n == "" || goStartsWith n "." then none
    else if goTrimSpaceEmpty n then none
    else if !isDirEmpty c then
      some { name := n, path := goJoin dirPath n, isDir := true, modTime := mt }
    else none

/-- Insert into a list sorted by modification time descending.  Together
with `sortByModTimeDesc` this models `sort.Slice(dirItems, less :=
After)` (line 444): the Go sort is unstable but any output it may produce
is arranged most-recent-first; we fix this deterministic realisation. -/
def insertDesc (x : directoryItem) : List directoryItem → List directoryItem
  | [] => [x]
  | y :: ys => if y.modTime < x.modTime then x :: y :: ys else y :: insertDesc x ys

/-- Sort by modification time, most recent first. -/
def sortByModTimeDesc : List directoryItem → List directoryItem
  | [] => []
  | x :: xs => insertDesc x (sortByModTimeDesc xs)

/-- Model of the rich `getDirectoryItems` (lines 391-454): parent sentinel
first when `filepath.Dir` differs from the path, nothing else on a read
error, otherwise the admitted directory children sorted most-recent-first.
(`convertToDirectoryItems` is the identity in this model: every list item
is a `directoryItem`.) -/
def getDirectoryItems (d : DirInput) : List directoryItem :=
  let base := if d.parent ≠ d.path then [parentItem d] else []
  match d.contents with
  | none => base
  | some es => base ++ sortByModTimeDesc (es.filterMap (toDirItem d.path))

/-- Model of `filterDirectories` (lines 492-507): empty filter returns the
collection unchanged, otherwise keep the items whose lowered name contains
the lowered filter. -/
def filterDirectories (dirs : List directoryItem) (filter : String) : List directoryItem :=
  if filter == "" then dirs
  else dirs.filter (fun d => goContains (goToLower d.name) (goToLower filter))

/- ### Lemmas about the sort. -/

theorem insertDesc_perm (x : directoryItem) (l : List directoryItem) :
    (insertDesc x l).Perm (x :: l) := by
  induction l with
  | nil => simp [insertDesc]
  | cons y ys ih =>
    by_cases h : y.modTime < x.modTime
    · simp [insertDesc, h]
    · simp only [insertDesc, if_neg h]
      exact (ih.cons y).trans (List.Perm.swap x y ys)

theorem sortByModTimeDesc_perm (l : List directoryItem) :
    (sortByModTimeDesc l).Perm l := by
  induction l with
  | nil => simp [sortByModTimeDesc]
  | cons x xs ih =>
    exact (insertDesc_perm x (sortByModTimeDesc xs)).trans (ih.cons x)

theorem insertDesc_pairwise (x : directoryItem) (l : List directoryItem)
    (h : l.Pairwise (fun a b => b.modTime ≤ a.modTime)) :
    (insertDesc x l).Pairwise (fun a b => b.modTime ≤ a.modTime) := by
  induction l with
  | nil => simp [insertDesc]
  | cons y ys ih =>
    rcases List.pairwise_cons.mp h with ⟨hy, hys⟩
    by_cases hcmp : y.modTime < x.modTime
    · simp only [insertDesc, if_pos hcmp]
      refine List.pairwise_cons.mpr ⟨?_, h⟩
      intro b hb
      rcases List.mem_cons.mp hb with rfl | hb'
      · exact Nat.le_of_lt hcmp
      · exact le_trans (hy b hb') (Nat.le_of_lt hcmp)
    · simp only [insertDesc, if_neg hcmp]
      refine List.pairwise_cons.mpr ⟨?_, ih hys⟩
      intro b hb
      have hb' := (insertDesc_perm x ys).mem_iff.mp hb
      rcases List.mem_cons.mp hb' with rfl | hb''
      · exact Nat.le_of_not_lt hcmp
      · exact hy b hb''

theorem sortByModTimeDesc_pairwise (l : List directoryItem) :
    (sortByModTimeDesc l).Pairwise (fun a b => b.modTime ≤ a.modTime) := by
  induction l with
  | nil => simp [sortByModTimeDesc]
  | cons x xs ih => exact insertDesc_pairwise x _ ih

/- ## Reachable files (for the emptiness characterisation). -/

/-- Stated from the claim's words: a directory (given by its `os.ReadDir`
outcome) has a reachable file iff some entry of it, or of a readable
descendant directory, is a non-directory entry — hidden names included. -/
def hasReachableFile : Option (List FsEntry) → Bool
  | none => false
  | some [] => false
  | some (FsEntry.file _ :: _) => true
  | some (FsEntry.dir _ _ c :: rest) => hasReachableFile c || hasReachableFile (some rest)

theorem isDirEmpty_eq_not_hasReachableFile (c : Option (List FsEntry)) :
    isDirEmpty c = !hasReachableFile c := by
  induction c using isDirEmpty.induct with
  | case1 => simp [isDirEmpty, hasReachableFile]
  | case2 => simp [isDirEmpty, hasReachableFile]
  | case3 => simp [isDirEmpty, hasReachableFile]
  | case4 n mt c rest ih1 ih2 => simp [isDirEmpty, hasReachableFile, ih1, ih2]

/- ## The external-process invoker (rich variant `runPythonScript`,
`src/src/file-indexer-tui/main.go` lines 999-1114). -/

/-- The wizard fields `runPythonScript` reads off the model. -/
structure WizardConfig : Type where
  selectedDir : String
  outputPath : String
  exportFormat : String
  debugMode : Bool
  litigantName : String
deriving DecidableEq

/-- The output filename after the auto-extension step (lines 1016-1024):
when the typed name contains no dot, `.csv` is appended for the `csv`
format and `.xlsx` otherwise. -/
def resolvedFilename (m : WizardConfig) : String :=
  if !goContains m.outputPath "." then
    if m.exportFormat == "csv" then m.outputPath ++ ".csv" else m.outputPath ++ ".xlsx"
  else m.outputPath

/-- The full output path (line 1026): the selected directory joined with
the resolved filename. -/
def fullOutputPath (m : WizardConfig) : String :=
  goJoin m.selectedDir (resolvedFilename m)

/-- The argument list built by the rich `runPythonScript` (lines
1009-1045), after the script path. -/
def runArgs (scriptPath : String) (m : WizardConfig) : List String :=
  [scriptPath, "--directory", m.selectedDir, "--output", fullOutputPath m]
    ++ (match m.exportFormat with
        | "csv" => ["--csv-only"]
        | "both" => ["--csv"]
        | _ => [])
    ++ (if m.debugMode then ["--debug"] else [])
    ++ (if m.litigantName ≠ "" then ["--litigant", m.litigantName] else [])

/-- Stated from the claim's words: the default extension for a chosen
export format (`.csv` for `csv`, `.xlsx` for `excel` and `both`). -/
def claimDefaultExt (format : String) : String :=
  if format == "csv" then ".csv" else ".xlsx"

/-- Stated from the claim's words: target directory after `--directory`;
after `--output` the join of the selected directory with the output name,
with the default extension appended when the name has no extension; a
format flag only when the format differs from the implicit `excel`
default (`--csv-only` for `csv`, `--csv` for `both`); `--debug` exactly
when debug is enabled; `--litigant <name>` exactly when the litigant
field is non-empty. -/
def claimArgs (scriptPath : String) (m : WizardConfig) : List String :=
  [scriptPath, "--directory", m.selectedDir, "--output",
    goJoin m.selectedDir
      (if goContains m.outputPath "." then m.outputPath
       else m.outputPath ++ claimDefaultExt m.exportFormat)]
    ++ (if m.exportFormat == "csv" then ["--csv-only"]
        else if m.exportFormat == "both" then ["--csv"] else [])
    ++ (if m.debugMode then ["--debug"] else [])
    ++ (if m.litigantName ≠ "" then ["--litigant", m.litigantName] else [])

/- ## The extension toggle of the simple variant (`src/main.go` `Update`,
`tab` case of the `selectingOutput` state, lines 311-325). -/

/-- Model of the `tab` handler: no dot means append the default extension
for the current export format; a recognised `.csv` / `.xlsx` suffix is
swapped for the other; anything else is untouched. -/
def toggleExtensionKey (exportFormat current : String) : String :=
  if !goContains current "." then
    if exportFormat == "csv" then current ++ ".csv" else current ++ ".xlsx"
  else if goEndsWith current ".csv" then goTrimSuffix current ".csv" ++ ".xlsx"
  else if goEndsWith current ".xlsx" then goTrimSuffix current ".xlsx" ++ ".csv"
  else current

/- ### Lemmas for the extension toggle. -/

theorem string_eq_of_data (a b : String) (h : a.data = b.data) : a = b := by
  cases a; cases b; exact congrArg String.mk h

theorem goContains_dot_of_mid (s : String) (p r : List Char)
    (h : s.data = p ++ ('.' :: r)) : goContains s "." = true := by
  unfold goContains
  have h1 : ".".data = ['.'] := rfl
  rw [h1, h]
  have h2 : ('.' :: r) = (['.'] ++ r) := rfl
  rw [h2]
  exact chContainsSeq_append_mid p ['.'] r

theorem goEndsWith_append_self (p : List Char) (suf : String) :
    goEndsWith (⟨p⟩ ++ suf) suf = true := by
  rw [goEndsWith_iff]
  exact ⟨p, by simp⟩

theorem goTrimSuffix_append (p : List Char) (suf : String) :
    goTrimSuffix (⟨p⟩ ++ suf) suf = ⟨p⟩ := by
  unfold goTrimSuffix
  rw [if_pos (goEndsWith_append_self p suf)]
  refine string_eq_of_data _ _ ?_
  simp [List.take_left']

theorem not_endsCsv_xlsx (p : List Char) :
    goEndsWith (⟨p⟩ ++ ".xlsx") ".csv" = false := by
  unfold goEndsWith
  simp [String.data_append, chStartsWith]

theorem not_endsXlsx_csv (p : List Char) :
    goEndsWith (⟨p⟩ ++ ".csv") ".xlsx" = false := by
  unfold goEndsWith
  simp [String.data_append, chStartsWith]

theorem toggle_involutive_csv (format name : String)
    (h : goEndsWith name ".csv" = true) :
    toggleExtensionKey format (toggleExtensionKey format name) = name := by
  obtain ⟨p, hp⟩ := (goEndsWith_iff name ".csv").mp h
  have hdot : goContains name "." = true := goContains_dot_of_mid name p _ hp
  have hname : name = ⟨p⟩ ++ ".csv" := by
    refine string_eq_of_data _ _ ?_
    simp [String.data_append, hp]
  have step1 : toggleExtensionKey format name = ⟨p⟩ ++ ".xlsx" := by
    rw [toggleExtensionKey.eq_def]
    rw [hdot, h]
    simp only [Bool.not_true, Bool.false_eq_true, if_false, if_true]
    rw [hname, goTrimSuffix_append]
  have hdot2 : goContains (⟨p⟩ ++ ".xlsx" : String) "." = true := by
    refine goContains_dot_of_mid _ p ['x', 'l', 's', 'x'] ?_
    simp [String.data_append]
  have step2 : toggleExtensionKey format (⟨p⟩ ++ ".xlsx") = ⟨p⟩ ++ ".csv" := by
    rw [toggleExtensionKey.eq_def]
    rw [hdot2, not_endsCsv_xlsx, goEndsWith_append_self, goTrimSuffix_append]
    simp
  rw [step1, step2, ← hname]

theorem toggle_involutive_xlsx (format name : String)
    (h : goEndsWith name ".xlsx" = true) :
    toggleExtensionKey format (toggleExtensionKey format name) = name := by
  obtain ⟨p, hp⟩ := (goEndsWith_iff name ".xlsx").mp h
  have hdot : goContains name "." = true := goContains_dot_of_mid name p _ hp
  have hname : name = ⟨p⟩ ++ ".xlsx" := by
    refine string_eq_of_data _ _ ?_
    simp [String.data_append, hp]
  have hnocsv : goEndsWith name ".csv" = false := by
    rw [hname]; exact not_endsCsv_xlsx p
  have step1 : toggleExtensionKey format name = ⟨p⟩ ++ ".csv" := by
    rw [toggleExtensionKey.eq_def]
    rw [hdot, hnocsv, h]
    simp only [Bool.not_true, Bool.false_eq_true, if_false, if_true]
    rw [hname, goTrimSuffix_append]
  have hdot2 : goContains (⟨p⟩ ++ ".csv" : String) "." = true := by
    refine goContains_dot_of_mid _ p ['c', 's', 'v'] ?_
    simp [String.data_append]
  have step2 : toggleExtensionKey format (⟨p⟩ ++ ".csv") = ⟨p⟩ ++ ".xlsx" := by
    rw [toggleExtensionKey.eq_def]
    rw [hdot2, goEndsWith_append_self, goTrimSuffix_append]
    simp
  rw [step1, step2, ← hname]

/- ## Output parsing helpers (rich `runPythonScript`, lines 1072-1108).
They model `strings.Split`, `strings.TrimSpace` and `strings.Fields` on
character lists. -/

/-- Split a character list at every character satisfying `p`
(model of `strings.Split` with a one-character separator, and, composed
with a non-empty filter, of `strings.Fields`). -/
def chSplitBy (p : Char → Bool) : List Char → List (List Char)
  | [] => [[]]
  | c :: t =>
    match chSplitBy p t with
    | [] => [[c]]
    | h :: r => if p c then [] :: h :: r else (c :: h) :: r

/-- Model of `strings.TrimSpace`. -/
def chTrim (l : List Char) : List Char :=
  ((l.dropWhile Char.isWhitespace).reverse.dropWhile Char.isWhitespace).reverse

/-- Everything after the first occurrence of `pat` (`none` when `pat` does
not occur). -/
def chAfterFirst : List Char → List Char → Option (List Char)
  | s, pat =>
    if chStartsWith s pat then some (s.drop pat.length)
    else
      match s with
      | [] => none
      | _ :: t => chAfterFirst t pat

/-- Everything before the first occurrence of `pat` (the whole list when
`pat` does not occur). -/
def chUpTo : List Char → List Char → List Char
  | s, pat =>
    if chStartsWith s pat then []
    else
      match s with
      | [] => []
      | c :: t => c :: chUpTo t pat

/-- Model of `strings.Fields`. -/
def chFields (l : List Char) : List (List Char) :=
  (chSplitBy Char.isWhitespace l).filter (fun w => !w.isEmpty)

/-- The word preceding the first word (at index ≥ 1) that contains
`file` — the inner loop of the file-count scan (lines 1096-1105). -/
def findCountWord : List (List Char) → Option (List Char)
  | w1 :: w2 :: rest =>
    if chContainsSeq w2 "file".data then some w1 else findCountWord (w2 :: rest)
  | _ => none

/-- Model of the saved-path extraction (lines 1076-1089): default is the
full output path; when some line of the output contains `saved to:`, the
trimmed segment of that line after its first `saved to:` marker is used. -/
def parseSavedPath (fullOut out : String) : String :=
  if goContains out "saved to:" then
    match (chSplitBy (fun c => c == '\n') out.data).find?
        (fun line => chContainsSeq line "saved to:".data) with
    | some line =>
      match chAfterFirst line "saved to:".data with
      | some rest => ⟨chTrim (chUpTo rest "saved to:".data)⟩
      | none => fullOut
    | none => fullOut
  else fullOut

/-- Model of the file-count extraction (lines 1091-1108): default is
`multiple`; when some line contains both `processed` and `file`, the word
preceding the first `file`-containing word of that line is used. -/
def parseFileCount (out : String) : String :=
  if goContains out "processed" then
    match (chSplitBy (fun c => c == '\n') out.data).find?
        (fun line => chContainsSeq line "processed".data
          && chContainsSeq line "file".data) with
    | some line =>
      match findCountWord (chFields line) with
      | some w => ⟨w⟩
      | none => "multiple"
    | none => "multiple"
  else "multiple"

/- ## Process completion (rich variant, lines 993-1113 and 781-789). -/

/-- The message posted back into the event loop by `runPythonScript`. -/
structure processCompleteMsg : Type where
  result : String
  error : String
deriving DecidableEq

/-- What `cmd.CombinedOutput()` produced: the combined stdout+stderr blob
and, for a launch failure or a non-zero exit, the Go error text. -/
structure ExecOutcome : Type where
  output : String
  err : Option String
deriving DecidableEq

/-- The interpreter-missing remediation text (lines 1059-1063; apostrophes
of the original text omitted). -/
def pythonInstallGuidance : String :=
  "🐍 Python is not installed or not in PATH\n\nSolutions:\n1. Install Python from https://python.org\n2. Make sure Add Python to PATH is checked during installation\n3. Restart this application after installing Python\n\n"

/-- The error text built on a failed execution (lines 1056-1065): the Go
error text, optional interpreter guidance, then the captured output
verbatim. -/
def pythonFailedMsg (errText output : String) : String :=
  "❌ Python execution failed: " ++ errText ++ "\n\n"
    ++ (if goContains errText "executable file not found" then pythonInstallGuidance else "")
    ++ "📋 Output:\n" ++ output

/-- The success summary (line 1111). -/
def successResult (fileCount savedPath : String) : String :=
  "🎉 Index created successfully!\n\n📋 Files processed: " ++ fileCount
    ++ "\n💾 Saved to: " ++ savedPath ++ "\n\n✅ Your file index is ready to use!"

/-- The completion message produced after `cmd.CombinedOutput()` returns
(lines 1055-1113): an error message carrying the output verbatim on
failure, the parsed success summary otherwise. -/
def processOutcome (fullOut : String) (e : ExecOutcome) : processCompleteMsg :=
  match e.err with
  | some errText => { result := "", error := pythonFailedMsg errText e.output }
  | none =>
    { result := successResult (parseFileCount e.output) (parseSavedPath fullOut e.output),
      error := "" }

/- ## The rich-variant state machine (`src/src/file-indexer-tui/main.go`,
`Update` lines 513-819). -/

/-- The wizard step (`state`, lines 69-78). -/
inductive state : Type where
  | selectingDirectory : state
  | selectingOutput : state
  | selectingLitigant : state
  | configuring : state
  | processing : state
  | finished : state
deriving DecidableEq

/-- The ambient effects the `Update` function consults: `os.ReadDir`
(`fs`), `filepath.Dir` (`parentOf`) and the start directory resolved by
`getDownloadsDirectory`. -/
structure Env : Type where
  fs : String → Option (List FsEntry)
  parentOf : String → String
  startDir : String

/-- The `DirInput` a listing of path `p` sees under environment `env`. -/
def dirInputAt (env : Env) (p : String) : DirInput :=
  { path := p, parent := env.parentOf p, contents := env.fs p }

/-- The rich `model` (lines 109-135).  Text inputs are modelled by their
string values; the `list.Model` by its item list and cursor.  The Go
field `processing` is named `processingFlag` to avoid clashing with the
`state` constructor. -/
structure RichModel : Type where
  st : state
  currentPath : String
  listItems : List directoryItem
  cursor : Nat
  outputValue : String
  litigantValue : String
  filterValue : String
  selectedDir : String
  outputPath : String
  litigantName : String
  exportFormat : String
  debugMode : Bool
  processingFlag : Bool
  result : String
  errorText : String
  filtering : Bool
  allDirectories : List directoryItem
  filteredDirs : List directoryItem
  advancedMode : Bool
  isSpanish : Bool

/-- Model of `initialModel` (lines 315-365): fresh state browsing the start
directory, Excel format, everything else empty or off. -/
def initialModel (env : Env) : RichModel :=
  let items := getDirectoryItems (dirInputAt env env.startDir)
  { st := state.selectingDirectory, currentPath := env.startDir, listItems := items,
    cursor := 0, outputValue := "", litigantValue := "", filterValue := "",
    selectedDir := "", outputPath := "", litigantName := "",
    exportFormat := "excel", debugMode := false, processingFlag := false,
    result := "", errorText := "", filtering := false,
    allDirectories := items, filteredDirs := [], advancedMode := false,
    isSpanish := true }

/-- Model of the third-party text-input component for the keys the Go code
lets reach it: a single character is appended, `backspace` deletes the
last character, any other key leaves the value unchanged. -/
def textInputUpd (v k : String) : String :=
  if k.length == 1 then v ++ k
  else if k == "backspace" then ⟨v.data.dropLast⟩
  else v

/-- Model of the list component's own key handling (the bottom dispatch of
`Update`, lines 793-810, forwards only `up`/`down`/`j`/`k` for cursor
movement). -/
def listNavUpd (m : RichModel) (k : String) : RichModel :=
  if k == "up" || k == "k" then { m with cursor := m.cursor - 1 }
  else if k == "down" || k == "j" then
    { m with cursor := min (m.cursor + 1) (m.listItems.length - 1) }
  else m

/-- Re-list after navigating to path `p` (the repeated
`getDirectoryItems` / `SetItems` / `Select(0)` block). -/
def navigateTo (env : Env) (m : RichModel) (p : String) : RichModel :=
  let items := getDirectoryItems (dirInputAt env p)
  { m with currentPath := p, listItems := items, cursor := 0,
           allDirectories := items }

/-- The result of one `Update` call: continue with a new model, quit
(`tea.Quit`), or continue and launch `runPythonScript`. -/
inductive TeaResult : Type where
  | quit (m : RichModel) : TeaResult
  | cont (m : RichModel) : TeaResult
  | runScript (m : RichModel) : TeaResult

/-- The model carried by an update result. -/
def TeaResult.model : TeaResult → RichModel
  | .quit m => m
  | .cont m => m
  | .runScript m => m

/-- The filter sub-mode of step 1 (lines 540-581): quit, cancel filter,
apply filter, auto-complete, or forward the key to the filter input and
recompute the filtered collection. -/
def updBrowseFiltering (env : Env) (m : RichModel) (k : String) : TeaResult :=
  if k == "ctrl+c" || k == "q" then .quit m
  else if k == "esc" then
    let items := getDirectoryItems (dirInputAt env m.currentPath)
    .cont { m with filtering := false, filterValue := "",
                   listItems := items, cursor := 0, allDirectories := items }
  else if k == "enter" then .cont { m with filtering := false }
  else if k == "tab" then
    match m.filteredDirs with
    | [] => .cont m
    | d :: _ => .cont { m with filterValue := d.name }
  else
    let v := textInputUpd m.filterValue k
    let fd := filterDirectories m.allDirectories v
    .cont { m with filterValue := v, filteredDirs := fd,
                   listItems := fd, cursor := 0 }

/-- Normal browsing in step 1 (lines 582-670 plus the trailing component
dispatch of lines 793-810). -/
def updBrowse (env : Env) (m : RichModel) (k : String) : TeaResult :=
  if k == "ctrl+c" || k == "q" then .quit m
  else if k == "ctrl+d" then .cont { m with advancedMode := !m.advancedMode }
  else if k == "i" then
    let items := getDirectoryItems (dirInputAt env m.currentPath)
    .cont { m with filtering := true, filterValue := "",
                   allDirectories := items, filteredDirs := items }
  else if k == "enter" then
    match m.listItems.get? m.cursor with
    | some sel =>
      if sel.name == ".." then .cont (navigateTo env m sel.path)
      else
        .cont { m with selectedDir := sel.path,
                       st := state.selectingOutput, outputValue := "index" }
    | none => .cont m
  else if k == "n" then
    match m.listItems.get? m.cursor with
    | some sel =>
      if sel.isDir && !(sel.name == "..") then .cont (navigateTo env m sel.path)
      else .cont m
    | none => .cont m
  else if k == " " || k == "space" then
    .cont { m with selectedDir := m.currentPath,
                   st := state.selectingOutput, outputValue := "index" }
  else if k == "left" then
    let parentDir := env.parentOf m.currentPath
    if !(parentDir == m.currentPath) then .cont (navigateTo env m parentDir)
    else .cont m
  else if k == "right" then
    match m.listItems.get? m.cursor with
    | some sel =>
      if sel.isDir && !(sel.name == "..") then .cont (navigateTo env m sel.path)
      else .cont m
    | none => .cont m
  else .cont (listNavUpd m k)

/-- Step 2 (lines 673-697 plus the trailing text-input update of line
813). -/
def updOutput (m : RichModel) (k : String) : TeaResult :=
  if k == "ctrl+c" || k == "q" then .quit m
  else if k == "ctrl+d" || k == "\x04" then
    let m1 := { m with advancedMode := !m.advancedMode }
    if !goTrimSpaceEmpty m1.outputValue then
      .cont { m1 with outputPath := m1.outputValue, st := state.selectingLitigant }
    else .cont m1
  else if k == "b" || k == "backspace" || k == "esc" then
    .cont { m with st := state.selectingDirectory }
  else if k == "enter" then
    if !(m.outputValue == "") then
      .cont { m with outputPath := m.outputValue, st := state.selectingLitigant }
    else .cont { m with outputValue := textInputUpd m.outputValue k }
  else .cont { m with outputValue := textInputUpd m.outputValue k }

/-- Step 3 (lines 699-711 plus the trailing text-input update of line
815). -/
def updLitigant (m : RichModel) (k : String) : TeaResult :=
  if k == "ctrl+c" || k == "q" then .quit m
  else if k == "b" || k == "backspace" || k == "esc" then
    .cont { m with st := state.selectingOutput }
  else if k == "enter" then
    .cont { m with litigantName := m.litigantValue, st := state.configuring }
  else .cont { m with litigantValue := textInputUpd m.litigantValue k }

/-- Step 4 (lines 713-755). -/
def updConfiguring (m : RichModel) (k : String) : TeaResult :=
  if k == "ctrl+c" || k == "q" then .quit m
  else if k == "ctrl+d" || k == "\x04" then
    .cont { m with advancedMode := !m.advancedMode }
  else if k == "1" then .cont { m with st := state.selectingDirectory }
  else if k == "2" then .cont { m with st := state.selectingOutput }
  else if k == "3" then .cont { m with st := state.selectingLitigant }
  else if k == "4" then
    if m.advancedMode then
      .cont { m with exportFormat :=
        if m.exportFormat == "excel" then "csv"
        else if m.exportFormat == "csv" then "both" else "excel" }
    else .cont m
  else if k == "d" then
    if m.advancedMode then .cont { m with debugMode := !m.debugMode }
    else .cont m
  else if k == "b" || k == "backspace" || k == "esc" then
    .cont { m with st := state.selectingOutput }
  else if k == "enter" then .runScript { m with st := state.processing }
  else .cont m

/-- Processing (lines 757-761): only quit is honoured. -/
def updProcessing (m : RichModel) (k : String) : TeaResult :=
  if k == "ctrl+c" || k == "q" then .quit m else .cont m

/-- Finished (lines 763-778); the `r` case is unreachable here because the
global handler already catches it, it is kept for fidelity. -/
def updFinished (env : Env) (m : RichModel) (k : String) : TeaResult :=
  if k == "ctrl+c" || k == "q" then .quit m
  else if k == "r" then .cont (initialModel env)
  else if k == "b" || k == "backspace" then
    .cont { m with st := state.configuring, errorText := "", result := "" }
  else if k == "enter" || k == "esc" then .quit m
  else .cont m

/-- Model of the rich `Update` for one key message (lines 524-819): the
global language toggle and reset first, then the per-state dispatch,
including the trailing component-update section for keys that fall
through their state's switch. -/
def keyUpdate (env : Env) (m : RichModel) (k : String) : TeaResult :=
  if k == "ctrl+e" then .cont { m with isSpanish := !m.isSpanish }
  else if k == "r" && !(m.st == state.processing) then .cont (initialModel env)
  else
    match m.st with
    | state.selectingDirectory =>
      if m.filtering then updBrowseFiltering env m k else updBrowse env m k
    | state.selectingOutput => updOutput m k
    | state.selectingLitigant => updLitigant m k
    | state.configuring => updConfiguring m k
    | state.processing => updProcessing m k
    | state.finished => updFinished env m k

/-- Model of the `processCompleteMsg` branch of `Update` (lines 781-789):
clear the processing flag, store the error or the result (exactly one, by
the non-empty test), and enter the Finished step. -/
def procCompleteUpdate (m : RichModel) (msg : processCompleteMsg) : RichModel :=
  let m1 := { m with processingFlag := false }
  let m2 := if !(msg.error == "") then { m1 with errorText := msg.error }
            else { m1 with result := msg.result }
  { m2 with st := state.finished }

/-- Fold a list of key messages through `keyUpdate`, keeping the carried
model. -/
def runKeys (env : Env) (m : RichModel) (ks : List String) : RichModel :=
  ks.foldl (fun acc k => (keyUpdate env acc k).model) m

/- ## Auxiliary lemmas for the claims. -/

theorem goContains_empty (s : String) : goContains s "" = true := by
  unfold goContains
  cases s.data with
  | nil => rfl
  | cons c t => simp [chContainsSeq, chStartsWith]

theorem goContains_append_right (x y : String) :
    goContains (x ++ y) y = true := by
  unfold goContains
  rw [String.data_append]
  have := chContainsSeq_append_mid x.data y.data []
  simpa using this

/-- C1: the rich `runPythonScript` builds exactly the argument list the
claim describes: `--directory` with the target, `--output` with the join
of the selected directory and the (extension-resolved) output name, the
format flag only when the format differs from the implicit `excel`
default, `--debug` exactly when debug is on, and `--litigant` exactly
when the litigant field is non-empty. -/
theorem C1_invoker_argument_list (scriptPath : String) (m : WizardConfig) :
    runArgs scriptPath m = claimArgs scriptPath m := by
  simp only [runArgs, claimArgs, fullOutputPath, resolvedFilename, claimDefaultExt]
  by_cases hd : goContains m.outputPath "."
  · simp only [hd, Bool.not_true, Bool.false_eq_true, if_false, if_true]
    by_cases h1 : m.exportFormat = "csv"
    · simp [h1]
    · by_cases h2 : m.exportFormat = "both"
      · simp [h2]
      · have b1 : (m.exportFormat == "csv") = false := by
          simpa using h1
        have b2 : (m.exportFormat == "both") = false := by
          simpa using h2
        simp only [b1, b2, if_false]
        congr 1
  · simp only [hd, Bool.not_false, if_true, Bool.false_eq_true, if_false]
    by_cases h1 : m.exportFormat = "csv"
    · simp [h1]
    · by_cases h2 : m.exportFormat = "both"
      · simp [h2]
      · have b1 : (m.exportFormat == "csv") = false := by
          simpa using h1
        have b2 : (m.exportFormat == "both") = false := by
          simpa using h2
        simp only [b1, b2, if_false]
        congr 1

/-- C4: `filterDirectories` returns exactly the order-preserving
subsequence of items whose name contains the filter case-insensitively;
the empty filter is the identity; and the `rep` scenario of the spec. -/
theorem C4_filter_subsequence :
    (∀ (dirs : List directoryItem) (f : String),
        filterDirectories dirs f
          = dirs.filter (fun d => goContains (goToLower d.name) (goToLower f))
        ∧ (filterDirectories dirs f).Sublist dirs)
    ∧ (∀ dirs : List directoryItem, filterDirectories dirs "" = dirs)
    ∧ filterDirectories
        [{ name := "Invoices", path := "/tmp/docs/Invoices", isDir := true, modTime := 3 },
         { name := "report.pdf", path := "/tmp/docs/report.pdf", isDir := false, modTime := 2 },
         { name := "Reports", path := "/tmp/docs/Reports", isDir := true, modTime := 1 }] "rep"
      = [{ name := "report.pdf", path := "/tmp/docs/report.pdf", isDir := false, modTime := 2 },
         { name := "Reports", path := "/tmp/docs/Reports", isDir := true, modTime := 1 }] := by
  have hmain : ∀ (dirs : List directoryItem) (f : String),
      filterDirectories dirs f
        = dirs.filter (fun d => goContains (goToLower d.name) (goToLower f)) := by
    intro dirs f
    unfold filterDirectories
    by_cases hf : f = ""
    · subst hf
      simp only [if_true, beq_self_eq_true]
      symm
      refine List.filter_eq_self.mpr ?_
      intro a _
      exact goContains_empty (goToLower a.name)
    · have : (f == "") = false := by simpa using hf
      simp [this]
  refine ⟨fun dirs f => ⟨hmain dirs f, ?_⟩, fun dirs => by simp [filterDirectories], by decide⟩
  rw [hmain dirs f]
  exact List.filter_sublist dirs

/-- C5: toggling the extension twice with a fixed export format is the
identity on names with a recognised `.csv`/`.xlsx` extension; a dotted
name with an unrecognised extension is untouched; an undotted name gets
the default extension of the selected export format appended. -/
theorem C5_extension_toggle (format name : String) :
    (goEndsWith name ".csv" = true ∨ goEndsWith name ".xlsx" = true →
        toggleExtensionKey format (toggleExtensionKey format name) = name)
    ∧ (goContains name "." = true → goEndsWith name ".csv" = false →
        goEndsWith name ".xlsx" = false → toggleExtensionKey format name = name)
    ∧ (goContains name "." = false →
        toggleExtensionKey format name = name ++ claimDefaultExt format) := by
  refine ⟨?_, ?_, ?_⟩
  · rintro (h | h)
    · exact toggle_involutive_csv format name h
    · exact toggle_involutive_xlsx format name h
  · intro h1 h2 h3
    simp [toggleExtensionKey, h1, h2, h3]
  · intro h
    simp only [toggleExtensionKey, claimDefaultExt, h, Bool.not_false, if_true]
    split <;> rfl

/-- Witness for C5 at concrete inputs: `a.csv` round-trips, `a.txt` is
untouched, `report` (no dot, `csv` format) gets `.csv` appended. -/
theorem C5_extension_toggle_witness :
    toggleExtensionKey "excel" (toggleExtensionKey "excel" "a.csv") = "a.csv"
    ∧ toggleExtensionKey "excel" "a.txt" = "a.txt"
    ∧ toggleExtensionKey "csv" "report" = "report" ++ claimDefaultExt "csv" :=
  ⟨(C5_extension_toggle "excel" "a.csv").1 (Or.inl (by decide)),
   (C5_extension_toggle "excel" "a.txt").2.1 (by decide) (by decide) (by decide),
   (C5_extension_toggle "csv" "report").2.2 (by decide)⟩

/-- C10: an unreadable subdirectory is treated as empty and hence never
admitted into the directory-only listing (prepending one to the children
leaves the listing unchanged), and a directory is non-empty exactly when
some entry of it or of a readable descendant is a non-directory entry,
hidden names included. -/
theorem C10_unreadable_empty_reachable :
    (∀ (dirPath n : String) (mt : Nat),
        toDirItem dirPath (FsEntry.dir n mt none) = none)
    ∧ (∀ (p par : String) (es : List FsEntry) (n : String) (mt : Nat),
        getDirectoryItems ⟨p, par, some (FsEntry.dir n mt none :: es)⟩
          = getDirectoryItems ⟨p, par, some es⟩)
    ∧ (∀ c : Option (List FsEntry), isDirEmpty c = !hasReachableFile c) := by
  have h1 : ∀ (dirPath n : String) (mt : Nat),
      toDirItem dirPath (FsEntry.dir n mt none) = none := by
    intro dirPath n mt
    simp [toDirItem, isDirEmpty]
  refine ⟨h1, ?_, isDirEmpty_eq_not_hasReachableFile⟩
  intro p par es n mt
  simp [getDirectoryItems, List.filterMap_cons, h1, parentItem]

/-- Counterexample for C6 as stated: an unreadable directory that is not
at the filesystem root yields a listing that is not the empty sequence
(it carries the parent sentinel). -/
theorem C6_counterexample :
    getDirectoryItems ⟨"/tmp/locked", "/tmp", none⟩ ≠ [] := by
  decide

/-- C6 amended: a listing of an unreadable directory contains only the
parent sentinel (and is therefore empty exactly at the filesystem root);
the lister is a total function, so the failure never escapes to the
caller. -/
theorem C6_unreadable_listing (d : DirInput) (h : d.contents = none) :
    getDirectoryItems d = (if d.parent ≠ d.path then [parentItem d] else [])
    ∧ ∀ it ∈ getDirectoryItems d, it.name = ".." := by
  obtain ⟨p, par, c⟩ := d
  subst h
  refine ⟨rfl, ?_⟩
  intro it hit
  simp only [getDirectoryItems] at hit
  by_cases hp : par ≠ p
  · simp only [if_pos hp, List.mem_singleton] at hit
    subst hit
    rfl
  · simp [if_neg hp] at hit

/-- Witness for C6 amended at the concrete unreadable input. -/
theorem C6_unreadable_listing_witness :
    getDirectoryItems ⟨"/tmp/locked", "/tmp", none⟩
      = (if (⟨"/tmp/locked", "/tmp", none⟩ : DirInput).parent
            ≠ (⟨"/tmp/locked", "/tmp", none⟩ : DirInput).path
         then [parentItem ⟨"/tmp/locked", "/tmp", none⟩] else [])
    ∧ ∀ it ∈ getDirectoryItems ⟨"/tmp/locked", "/tmp", none⟩, it.name = ".." :=
  C6_unreadable_listing ⟨"/tmp/locked", "/tmp", none⟩ rfl

/-- Stated from the claim's words: the number of visible, non-hidden
immediate children of a directory (files and directories alike). -/
def specVisibleChildCount (es : List FsEntry) : Nat :=
  (es.filter (fun e => !(e.entryName == "") && !(goStartsWith e.entryName "."))).length

/-- Counterexample for C3 as stated: a non-root directory with exactly one
visible, non-hidden child (a regular file) would have to list 1 + 1
entries, but the rich lister lists only the parent sentinel. -/
theorem C3_counterexample :
    specVisibleChildCount [FsEntry.file "f.txt"] = 1
    ∧ (getDirectoryItems ⟨"/tmp/docs", "/tmp", some [FsEntry.file "f.txt"]⟩).length
        ≠ 1 + 1 := by
  constructor
  · decide
  · decide

/-- C3 amended: for a readable directory the listing is the parent
sentinel (exactly when not at the filesystem root) followed by the
admitted directory children; its length is the number of admitted
children plus the sentinel; the sentinel, when present, is first; and the
non-sentinel part is a permutation of the admitted children arranged by
modification time descending — a deterministic total order. -/
theorem C3_listing_shape (d : DirInput) (es : List FsEntry)
    (h : d.contents = some es) :
    getDirectoryItems d
      = (if d.parent ≠ d.path then [parentItem d] else [])
        ++ sortByModTimeDesc (es.filterMap (toDirItem d.path))
    ∧ (getDirectoryItems d).length
      = (es.filterMap (toDirItem d.path)).length
        + (if d.parent = d.path then 0 else 1)
    ∧ (d.parent ≠ d.path → (getDirectoryItems d).head? = some (parentItem d))
    ∧ (sortByModTimeDesc (es.filterMap (toDirItem d.path))).Perm
        (es.filterMap (toDirItem d.path))
    ∧ (sortByModTimeDesc (es.filterMap (toDirItem d.path))).Pairwise
        (fun a b => b.modTime ≤ a.modTime) := by
  obtain ⟨p, par, c⟩ := d
  subst h
  refine ⟨rfl, ?_, ?_, sortByModTimeDesc_perm _, sortByModTimeDesc_pairwise _⟩
  · have hlen := (sortByModTimeDesc_perm (es.filterMap (toDirItem p))).length_eq
    by_cases hp : par = p
    · simp [getDirectoryItems, hp, hlen]
    · simp [getDirectoryItems, hp, hlen, Nat.add_comm]
  · intro hp
    simp [getDirectoryItems, if_pos hp]

/-- The `/tmp/docs` scenario input: subdirectory `a` holds a file,
subdirectory `b` is empty. -/
def exDocsChildren : List FsEntry :=
  [FsEntry.dir "a" 5 (some [FsEntry.file "x.pdf"]),
   FsEntry.dir "b" 3 (some [])]

/-- The `/tmp/docs` scenario directory. -/
def exDocs : DirInput :=
  { path := "/tmp/docs", parent := "/tmp", contents := some exDocsChildren }

/-- Witness for C3 amended at the `/tmp/docs` scenario input. -/
theorem C3_listing_shape_witness :
    getDirectoryItems exDocs
      = (if exDocs.parent ≠ exDocs.path then [parentItem exDocs] else [])
        ++ sortByModTimeDesc (exDocsChildren.filterMap (toDirItem exDocs.path))
    ∧ (getDirectoryItems exDocs).length
      = (exDocsChildren.filterMap (toDirItem exDocs.path)).length
        + (if exDocs.parent = exDocs.path then 0 else 1)
    ∧ (exDocs.parent ≠ exDocs.path →
        (getDirectoryItems exDocs).head? = some (parentItem exDocs))
    ∧ (sortByModTimeDesc (exDocsChildren.filterMap (toDirItem exDocs.path))).Perm
        (exDocsChildren.filterMap (toDirItem exDocs.path))
    ∧ (sortByModTimeDesc (exDocsChildren.filterMap (toDirItem exDocs.path))).Pairwise
        (fun a b => b.modTime ≤ a.modTime) :=
  C3_listing_shape exDocs exDocsChildren rfl

/-- C2: a visible directory child is present in the rich listing exactly
when it is not recursively empty of regular files; in the `/tmp/docs`
scenario the listing is `[.., a]` and `b` is excluded. -/
theorem C2_recursively_empty_excluded :
    (∀ (d : DirInput) (es : List FsEntry) (n : String) (mt : Nat)
        (c : Option (List FsEntry)),
        d.contents = some es →
        (es.map FsEntry.entryName).Nodup →
        FsEntry.dir n mt c ∈ es →
        (n == "") = false → goStartsWith n "." = false →
        goTrimSpaceEmpty n = false →
        ((∃ it ∈ getDirectoryItems d, it.name = n) ↔ isDirEmpty c = false))
    ∧ getDirectoryItems exDocs
        = [parentItem exDocs,
           { name := "a", path := goJoin "/tmp/docs" "a", isDir := true, modTime := 5 }] := by
  constructor
  · intro d es n mt c hc hnd hmem hne hhid htrim
    obtain ⟨p, par, cc⟩ := d
    simp only at hc
    subst hc
    constructor
    · rintro ⟨it, hit, hname⟩
      simp only [getDirectoryItems] at hit
      rcases List.mem_append.mp hit with hbase | hsort
      · by_cases hpp : par ≠ p
        · simp only [ne_eq] at hbase
          rw [if_pos hpp] at hbase
          have hit2 : it = parentItem ⟨p, par, some es⟩ :=
            List.mem_singleton.mp hbase
          rw [hit2] at hname
          have hns : n = ".." := by
            rw [← hname]
            rfl
          rw [hns] at hhid
          exact absurd hhid (by decide)
        · rw [if_neg hpp] at hbase
          exact absurd hbase (List.not_mem_nil it)
      · have hK : it ∈ es.filterMap (toDirItem p) :=
          (sortByModTimeDesc_perm _).mem_iff.mp hsort
        obtain ⟨e, he, hte⟩ := List.mem_filterMap.mp hK
        cases e with
        | file fn => simp [toDirItem] at hte
        | dir n' mt' c' =>
          simp only [toDirItem] at hte
          by_cases hcond1 : (n' == "" || goStartsWith n' ".") = true
          · rw [if_pos hcond1] at hte
            exact absurd hte (by simp)
          · rw [if_neg hcond1] at hte
            by_cases hcond2 : goTrimSpaceEmpty n' = true
            · rw [if_pos hcond2] at hte
              exact absurd hte (by simp)
            · rw [if_neg hcond2] at hte
              by_cases hcond3 : (!isDirEmpty c') = true
              · rw [if_pos hcond3] at hte
                have hitname : it.name = n' := by
                  have := Option.some.inj hte
                  rw [← this]
                have hn : n' = n := by rw [← hitname, hname]
                subst hn
                have heq : FsEntry.dir n' mt' c' = FsEntry.dir n' mt c := by
                  refine List.inj_on_of_nodup_map hnd he hmem ?_
                  rfl
                have hcc : c' = c := by
                  injection heq
                rw [← hcc]
                simpa using hcond3
              · rw [if_neg hcond3] at hte
                exact absurd hte (by simp)
    · intro hemp
      have ht : toDirItem p (FsEntry.dir n mt c)
          = some { name := n, path := goJoin p n, isDir := true, modTime := mt } := by
        simp [toDirItem, hne, hhid, htrim, hemp]
      refine ⟨{ name := n, path := goJoin p n, isDir := true, modTime := mt }, ?_, rfl⟩
      simp only [getDirectoryItems]
      refine List.mem_append.mpr (Or.inr ?_)
      refine (sortByModTimeDesc_perm _).mem_iff.mpr ?_
      exact List.mem_filterMap.mpr ⟨FsEntry.dir n mt c, hmem, ht⟩
  · simp [exDocs, exDocsChildren, getDirectoryItems, toDirItem, isDirEmpty,
      sortByModTimeDesc, insertDesc, parentItem, goJoin, goStartsWith,
      goTrimSpaceEmpty, chStartsWith]

/-- Witness for C2 at the `/tmp/docs` scenario: `a` appears in the
listing, `b` does not. -/
theorem C2_recursively_empty_excluded_witness :
    (∃ it ∈ getDirectoryItems exDocs, it.name = "a")
    ∧ ¬(∃ it ∈ getDirectoryItems exDocs, it.name = "b") := by
  constructor
  · refine (C2_recursively_empty_excluded.1 exDocs exDocsChildren "a" 5
      (some [FsEntry.file "x.pdf"]) rfl (by decide) ?_ (by decide) (by decide)
      (by decide)).mpr ?_
    · exact List.mem_cons_self _ _
    · simp [isDirEmpty]
  · intro hb
    have := (C2_recursively_empty_excluded.1 exDocs exDocsChildren "b" 3
      (some []) rfl (by decide) ?_ (by decide) (by decide) (by decide)).mp hb
    · rw [isDirEmpty] at this
      simp at this
    · exact List.mem_cons.mpr (Or.inr (List.mem_cons_self _ _))

theorem string_append_ne_empty_left (a b : String) (h : 0 < a.length) :
    a ++ b ≠ "" := by
  intro he
  have hl := congrArg String.length he
  rw [String.length_append] at hl
  have h0 : ("" : String).length = 0 := rfl
  rw [h0] at hl
  omega

theorem pythonFailedMsg_ne_empty (errText output : String) :
    pythonFailedMsg errText output ≠ "" := by
  unfold pythonFailedMsg
  apply string_append_ne_empty_left
  simp only [String.length_append]
  have h : 0 < "❌ Python execution failed: ".length := by decide
  omega

theorem successResult_ne_empty (fileCount savedPath : String) :
    successResult fileCount savedPath ≠ "" := by
  unfold successResult
  apply string_append_ne_empty_left
  simp only [String.length_append]
  have h : 0 < "🎉 Index created successfully!\n\n📋 Files processed: ".length := by
    decide
  omega

/-- C7: a launched process that exits non-zero yields a completion event
whose error contains the captured output verbatim and whose result is
empty; consuming the event enters Finished with exactly one of the
error text and the success result set — in both the failure and the
success case. -/
theorem C7_failure_event_exclusive :
    (∀ (e : ExecOutcome) (errText fullOut : String) (m : RichModel),
        e.err = some errText → m.result = "" →
        goContains (processOutcome fullOut e).error e.output = true
        ∧ (processOutcome fullOut e).result = ""
        ∧ (procCompleteUpdate m (processOutcome fullOut e)).st = state.finished
        ∧ (procCompleteUpdate m (processOutcome fullOut e)).errorText ≠ ""
        ∧ (procCompleteUpdate m (processOutcome fullOut e)).result = "")
    ∧ (∀ (e : ExecOutcome) (fullOut : String) (m : RichModel),
        e.err = none → m.errorText = "" →
        (processOutcome fullOut e).error = ""
        ∧ (processOutcome fullOut e).result ≠ ""
        ∧ (procCompleteUpdate m (processOutcome fullOut e)).st = state.finished
        ∧ (procCompleteUpdate m (processOutcome fullOut e)).errorText = ""
        ∧ (procCompleteUpdate m (processOutcome fullOut e)).result ≠ "") := by
  constructor
  · intro e errText fullOut m he hres
    obtain ⟨out, err⟩ := e
    simp only at he
    subst he
    have hne : pythonFailedMsg errText out ≠ "" := pythonFailedMsg_ne_empty errText out
    have hbeq : (pythonFailedMsg errText out == "") = false := by
      simpa using hne
    refine ⟨?_, rfl, ?_, ?_, ?_⟩
    · simp only [processOutcome]
      unfold pythonFailedMsg
      exact goContains_append_right _ out
    · simp [procCompleteUpdate, processOutcome, hbeq]
    · simp [procCompleteUpdate, processOutcome, hbeq, hne]
    · simp [procCompleteUpdate, processOutcome, hbeq, hres]
  · intro e fullOut m he herr
    obtain ⟨out, err⟩ := e
    simp only at he
    subst he
    have hne : successResult (parseFileCount out) (parseSavedPath fullOut out) ≠ "" :=
      successResult_ne_empty _ _
    refine ⟨rfl, hne, ?_, ?_, ?_⟩
    · simp [procCompleteUpdate, processOutcome]
    · simp [procCompleteUpdate, processOutcome, herr]
    · simp [procCompleteUpdate, processOutcome, hne]

/-- Witness for C7 at the concrete non-zero exit with output
`permission denied`, and at a concrete success, from a freshly started
model. -/
theorem C7_failure_event_exclusive_witness :
    (goContains (processOutcome "/tmp/docs/index.xlsx"
        ⟨"permission denied", some "exit status 1"⟩).error "permission denied" = true
      ∧ (processOutcome "/tmp/docs/index.xlsx"
          ⟨"permission denied", some "exit status 1"⟩).result = ""
      ∧ (procCompleteUpdate (initialModel ⟨fun _ => some [], fun p => p, "/root"⟩)
          (processOutcome "/tmp/docs/index.xlsx"
            ⟨"permission denied", some "exit status 1"⟩)).st = state.finished
      ∧ (procCompleteUpdate (initialModel ⟨fun _ => some [], fun p => p, "/root"⟩)
          (processOutcome "/tmp/docs/index.xlsx"
            ⟨"permission denied", some "exit status 1"⟩)).errorText ≠ ""
      ∧ (procCompleteUpdate (initialModel ⟨fun _ => some [], fun p => p, "/root"⟩)
          (processOutcome "/tmp/docs/index.xlsx"
            ⟨"permission denied", some "exit status 1"⟩)).result = "")
    ∧ ((processOutcome "/tmp/docs/index.xlsx" ⟨"done", none⟩).error = ""
      ∧ (processOutcome "/tmp/docs/index.xlsx" ⟨"done", none⟩).result ≠ ""
      ∧ (procCompleteUpdate (initialModel ⟨fun _ => some [], fun p => p, "/root"⟩)
          (processOutcome "/tmp/docs/index.xlsx" ⟨"done", none⟩)).st = state.finished
      ∧ (procCompleteUpdate (initialModel ⟨fun _ => some [], fun p => p, "/root"⟩)
          (processOutcome "/tmp/docs/index.xlsx" ⟨"done", none⟩)).errorText = ""
      ∧ (procCompleteUpdate (initialModel ⟨fun _ => some [], fun p => p, "/root"⟩)
          (processOutcome "/tmp/docs/index.xlsx" ⟨"done", none⟩)).result ≠ "") :=
  ⟨C7_failure_event_exclusive.1 ⟨"permission denied", some "exit status 1"⟩
      "exit status 1" "/tmp/docs/index.xlsx"
      (initialModel ⟨fun _ => some [], fun p => p, "/root"⟩) rfl rfl,
   C7_failure_event_exclusive.2 ⟨"done", none⟩ "/tmp/docs/index.xlsx"
      (initialModel ⟨fun _ => some [], fun p => p, "/root"⟩) rfl rfl⟩

/- ## The typed-text invariant of the rich variant. -/

/-- No `q` and no `r` occurs in the string. -/
def noQR (s : String) : Bool :=
  !(s.data.any (fun c => c == 'q' || c == 'r'))

/-- The four wizard text fields (the two live input values and their two
committed copies) are all free of `q` and `r`. -/
def goodVals (m : RichModel) : Bool :=
  noQR m.outputValue && noQR m.litigantValue && noQR m.outputPath && noQR m.litigantName

theorem noQR_append_char (v k : String) (hv : noQR v = true) (hk : k.length = 1)
    (hq : k ≠ "q") (hr : k ≠ "r") : noQR (v ++ k) = true := by
  unfold noQR at hv ⊢
  rw [String.data_append]
  obtain ⟨c, hc⟩ := List.length_eq_one.mp hk
  have hcq : (c == 'q') = false := by
    rcases Bool.eq_false_or_eq_true (c == 'q') with ht | hf
    · exfalso
      apply hq
      apply string_eq_of_data
      rw [hc]
      have hcq2 : c = 'q' := by simpa using ht
      rw [hcq2]
    · exact hf
  have hcr : (c == 'r') = false := by
    rcases Bool.eq_false_or_eq_true (c == 'r') with ht | hf
    · exfalso
      apply hr
      apply string_eq_of_data
      rw [hc]
      have hcr2 : c = 'r' := by simpa using ht
      rw [hcr2]
    · exact hf
  rw [hc]
  simp only [List.any_append, List.any_cons, List.any_nil, hcq, hcr,
    Bool.or_false, Bool.or_self] at hv ⊢
  simpa using hv

theorem noQR_dropLast (v : String) (hv : noQR v = true) :
    noQR (⟨v.data.dropLast⟩ : String) = true := by
  unfold noQR at hv ⊢
  simp only [Bool.not_eq_true', List.any_eq_false] at hv ⊢
  intro c hcmem
  exact hv c ((List.dropLast_sublist v.data).mem hcmem)

theorem noQR_textInputUpd (v k : String) (hv : noQR v = true)
    (hq : k ≠ "q") (hr : k ≠ "r") : noQR (textInputUpd v k) = true := by
  unfold textInputUpd
  by_cases h1 : (k.length == 1) = true
  · rw [if_pos h1]
    exact noQR_append_char v k hv (by simpa using h1) hq hr
  · rw [if_neg h1]
    by_cases h2 : (k == "backspace") = true
    · rw [if_pos h2]
      exact noQR_dropLast v hv
    · rw [if_neg h2]
      exact hv

theorem goodVals_initialModel (env : Env) : goodVals (initialModel env) = true := by
  rfl

theorem goodVals_listNavUpd (m : RichModel) (k : String) :
    goodVals (listNavUpd m k) = goodVals m := by
  unfold listNavUpd
  split
  · rfl
  · split
    · rfl
    · rfl


theorem goodVals_navigateTo (env : Env) (m : RichModel) (p : String) :
    goodVals (navigateTo env m p) = goodVals m := rfl

theorem goodVals_updBrowseFiltering (env : Env) (m : RichModel) (k : String)
    (h : goodVals m = true) :
    goodVals ((updBrowseFiltering env m k).model) = true := by
  unfold updBrowseFiltering
  repeat' split
  all_goals exact h

theorem goodVals_updBrowse (env : Env) (m : RichModel) (k : String)
    (h : goodVals m = true) :
    goodVals ((updBrowse env m k).model) = true := by
  have hcomp := h
  simp only [goodVals, Bool.and_eq_true] at hcomp
  obtain ⟨⟨⟨h1, h2⟩, h3⟩, h4⟩ := hcomp
  unfold updBrowse
  simp only [apply_ite TeaResult.model]
  repeat' split
  all_goals
    first
    | exact h
    | (rw [TeaResult.model, goodVals_listNavUpd]; exact h)
    | (simp only [TeaResult.model, goodVals, Bool.and_eq_true]
       refine ⟨⟨⟨?_, ?_⟩, ?_⟩, ?_⟩ <;> first | assumption | decide)

theorem goodVals_updOutput (m : RichModel) (k : String)
    (h : goodVals m = true) (hr : k ≠ "r") :
    goodVals ((updOutput m k).model) = true := by
  have hcomp := h
  simp only [goodVals, Bool.and_eq_true] at hcomp
  obtain ⟨⟨⟨h1, h2⟩, h3⟩, h4⟩ := hcomp
  unfold updOutput
  simp only [apply_ite TeaResult.model]
  repeat' split
  all_goals
    first
    | exact h
    | (simp only [TeaResult.model, goodVals, Bool.and_eq_true]
       refine ⟨⟨⟨?_, ?_⟩, ?_⟩, ?_⟩ <;>
         first
         | assumption
         | (apply noQR_textInputUpd _ _ h1 ?_ hr
            intro hkq
            subst hkq
            simp_all))

theorem goodVals_updLitigant (m : RichModel) (k : String)
    (h : goodVals m = true) (hr : k ≠ "r") :
    goodVals ((updLitigant m k).model) = true := by
  have hcomp := h
  simp only [goodVals, Bool.and_eq_true] at hcomp
  obtain ⟨⟨⟨h1, h2⟩, h3⟩, h4⟩ := hcomp
  unfold updLitigant
  simp only [apply_ite TeaResult.model]
  repeat' split
  all_goals
    first
    | exact h
    | (simp only [TeaResult.model, goodVals, Bool.and_eq_true]
       refine ⟨⟨⟨?_, ?_⟩, ?_⟩, ?_⟩ <;>
         first
         | assumption
         | (apply noQR_textInputUpd _ _ h2 ?_ hr
            intro hkq
            subst hkq
            simp_all))

theorem goodVals_updConfiguring (m : RichModel) (k : String)
    (h : goodVals m = true) :
    goodVals ((updConfiguring m k).model) = true := by
  unfold updConfiguring
  simp only [apply_ite TeaResult.model]
  repeat' split
  all_goals exact h

theorem goodVals_updProcessing (m : RichModel) (k : String)
    (h : goodVals m = true) :
    goodVals ((updProcessing m k).model) = true := by
  unfold updProcessing
  split
  · exact h
  · exact h

theorem goodVals_updFinished (env : Env) (m : RichModel) (k : String)
    (h : goodVals m = true) :
    goodVals ((updFinished env m k).model) = true := by
  unfold updFinished
  repeat' split
  all_goals first | exact h | exact goodVals_initialModel env

theorem goodVals_keyUpdate (env : Env) (m : RichModel) (k : String)
    (h : goodVals m = true) : goodVals ((keyUpdate env m k).model) = true := by
  unfold keyUpdate
  split
  · exact h
  · split
    · exact goodVals_initialModel env
    · next hglob =>
      split
      case _ hst =>
        split
        · exact goodVals_updBrowseFiltering env m k h
        · exact goodVals_updBrowse env m k h
      case _ hst =>
        refine goodVals_updOutput m k h ?_
        intro hk
        subst hk
        rw [hst] at hglob
        simp at hglob
      case _ hst =>
        refine goodVals_updLitigant m k h ?_
        intro hk
        subst hk
        rw [hst] at hglob
        simp at hglob
      case _ hst => exact goodVals_updConfiguring m k h
      case _ hst => exact goodVals_updProcessing m k h
      case _ hst => exact goodVals_updFinished env m k h

/- ### Reduction lemmas for the filter sub-mode. -/

theorem keyUpdate_browse_i (env : Env) (m : RichModel)
    (hst : m.st = state.selectingDirectory) (hf : m.filtering = false) :
    keyUpdate env m "i"
      = .cont { m with
                  filtering := true,
                  filterValue := "",
                  allDirectories := getDirectoryItems (dirInputAt env m.currentPath),
                  filteredDirs := getDirectoryItems (dirInputAt env m.currentPath) } := by
  simp [keyUpdate, hst, hf, updBrowse]

theorem keyUpdate_filtering_esc (env : Env) (m : RichModel)
    (hst : m.st = state.selectingDirectory) (hf : m.filtering = true) :
    keyUpdate env m "esc"
      = .cont { m with
                  filtering := false,
                  filterValue := "",
                  listItems := getDirectoryItems (dirInputAt env m.currentPath),
                  cursor := 0,
                  allDirectories := getDirectoryItems (dirInputAt env m.currentPath) } := by
  simp [keyUpdate, hst, hf, updBrowseFiltering]

theorem keyUpdate_filtering_char (env : Env) (m : RichModel) (k : String)
    (hst : m.st = state.selectingDirectory) (hf : m.filtering = true)
    (hk : k.length = 1) (hq : k ≠ "q") (hr : k ≠ "r") :
    keyUpdate env m k
      = .cont { m with
                  filterValue := textInputUpd m.filterValue k,
                  filteredDirs := filterDirectories m.allDirectories (textInputUpd m.filterValue k),
                  listItems := filterDirectories m.allDirectories (textInputUpd m.filterValue k),
                  cursor := 0 } := by
  have hne1 : k ≠ "ctrl+e" := by
    intro he; rw [he] at hk; exact absurd hk (by decide)
  have hne2 : k ≠ "ctrl+c" := by
    intro he; rw [he] at hk; exact absurd hk (by decide)
  have hne3 : k ≠ "esc" := by
    intro he; rw [he] at hk; exact absurd hk (by decide)
  have hne4 : k ≠ "enter" := by
    intro he; rw [he] at hk; exact absurd hk (by decide)
  have hne5 : k ≠ "tab" := by
    intro he; rw [he] at hk; exact absurd hk (by decide)
  have e1 : (k == "ctrl+e") = false := by simpa using hne1
  have e2 : (k == "ctrl+c") = false := by simpa using hne2
  have e3 : (k == "esc") = false := by simpa using hne3
  have e4 : (k == "enter") = false := by simpa using hne4
  have e5 : (k == "tab") = false := by simpa using hne5
  have e6 : (k == "q") = false := by simpa using hq
  have e7 : (k == "r") = false := by simpa using hr
  simp [keyUpdate, hst, hf, updBrowseFiltering, e1, e2, e3, e4, e5, e6, e7]

/-- Keys typed inside the filter sub-mode keep the wizard in step 1, keep
filter mode on and never change the browsed path. -/
theorem runKeys_filtering_inv (env : Env) :
    ∀ ks : List String, (∀ k ∈ ks, k.length = 1 ∧ k ≠ "q" ∧ k ≠ "r") →
    ∀ m : RichModel, m.st = state.selectingDirectory → m.filtering = true →
      (runKeys env m ks).st = state.selectingDirectory
      ∧ (runKeys env m ks).filtering = true
      ∧ (runKeys env m ks).currentPath = m.currentPath := by
  intro ks
  induction ks with
  | nil => intro _ m h1 h2; exact ⟨h1, h2, rfl⟩
  | cons k ks ih =>
    intro hks m h1 h2
    obtain ⟨hk, hq2, hr2⟩ := hks k (List.mem_cons_self k ks)
    have hstep : runKeys env m (k :: ks)
        = runKeys env ((keyUpdate env m k).model) ks := rfl
    rw [hstep, keyUpdate_filtering_char env m k h1 h2 hk hq2 hr2]
    have hks2 : ∀ x ∈ ks, x.length = 1 ∧ x ≠ "q" ∧ x ≠ "r" :=
      fun x hx => hks x (List.mem_cons_of_mem _ hx)
    exact ih hks2 _ h1 h2

/-- C8: from step 1 with the unfiltered listing displayed, entering filter
mode, typing any sequence of ordinary character keys, then cancelling the
filter, reproduces the original collection in its original order
(the directory contents are unchanged: the same environment is read). -/
theorem C8_filter_roundtrip (env : Env) (m : RichModel) (ks : List String)
    (hst : m.st = state.selectingDirectory) (hf : m.filtering = false)
    (hl : m.listItems = getDirectoryItems (dirInputAt env m.currentPath))
    (hks : ∀ k ∈ ks, k.length = 1 ∧ k ≠ "q" ∧ k ≠ "r") :
    (runKeys env m ("i" :: (ks ++ ["esc"]))).listItems = m.listItems := by
  have hstep : runKeys env m ("i" :: (ks ++ ["esc"]))
      = runKeys env ((keyUpdate env m "i").model) (ks ++ ["esc"]) := rfl
  rw [hstep, keyUpdate_browse_i env m hst hf]
  simp only [TeaResult.model]
  obtain ⟨i1, i2, i3⟩ := runKeys_filtering_inv env ks hks
    { m with
        filtering := true,
        filterValue := "",
        allDirectories := getDirectoryItems (dirInputAt env m.currentPath),
        filteredDirs := getDirectoryItems (dirInputAt env m.currentPath) }
    hst rfl
  have hsplit : runKeys env
      { m with
          filtering := true,
          filterValue := "",
          allDirectories := getDirectoryItems (dirInputAt env m.currentPath),
          filteredDirs := getDirectoryItems (dirInputAt env m.currentPath) }
      (ks ++ ["esc"])
      = (keyUpdate env (runKeys env
          { m with
              filtering := true,
              filterValue := "",
              allDirectories := getDirectoryItems (dirInputAt env m.currentPath),
              filteredDirs := getDirectoryItems (dirInputAt env m.currentPath) }
          ks) "esc").model := by
    unfold runKeys
    rw [List.foldl_append]
    rfl
  rw [hsplit, keyUpdate_filtering_esc env _ i1 i2]
  simp only [TeaResult.model]
  rw [i3]
  exact hl.symm

/-- A concrete environment for witnesses: every directory reads empty,
every path is its own parent (filesystem root), start at `/root`. -/
def exEnv : Env :=
  { fs := fun _ => some [], parentOf := fun p => p, startDir := "/root" }

/-- Witness for C8: from the fresh model, filter with `a`, cancel, and the
listing is back. -/
theorem C8_filter_roundtrip_witness :
    (runKeys exEnv (initialModel exEnv) ("i" :: (["a"] ++ ["esc"]))).listItems
      = (initialModel exEnv).listItems :=
  C8_filter_roundtrip exEnv (initialModel exEnv) ["a"] rfl rfl rfl (by
    intro k hk
    rw [List.mem_singleton] at hk
    subst hk
    exact ⟨by decide, by decide, by decide⟩)

/-- C9: in the rich variant, `q` in either text-entry step quits before
the key reaches the text input; `r` in any state other than Processing
replaces the whole model with a fresh initial one; every key event
preserves freedom of the wizard's text fields from the letters `q` and
`r`; hence along any key trace from the initial model neither the output
filename nor the litigant name ever contains `q` or `r`. -/
theorem C9_q_r_interception :
    (∀ (env : Env) (m : RichModel),
        m.st = state.selectingOutput ∨ m.st = state.selectingLitigant →
        keyUpdate env m "q" = .quit m)
    ∧ (∀ (env : Env) (m : RichModel), m.st ≠ state.processing →
        keyUpdate env m "r" = .cont (initialModel env))
    ∧ (∀ (env : Env) (m : RichModel) (k : String), goodVals m = true →
        goodVals ((keyUpdate env m k).model) = true)
    ∧ (∀ (env : Env) (ks : List String),
        goodVals (runKeys env (initialModel env) ks) = true) := by
  refine ⟨?_, ?_, fun env m k => goodVals_keyUpdate env m k, ?_⟩
  · intro env m hst
    rcases hst with hst | hst <;>
      simp [keyUpdate, hst, updOutput, updLitigant]
  · intro env m hst
    have hb : (m.st == state.processing) = false := by simpa using hst
    simp [keyUpdate, hb]
  · intro env ks
    have hgen : ∀ (l : List String) (m : RichModel), goodVals m = true →
        goodVals (runKeys env m l) = true := by
      intro l
      induction l with
      | nil => intro m hm; exact hm
      | cons k l ih => intro m hm; exact ih _ (goodVals_keyUpdate env m k hm)
    exact hgen ks _ (goodVals_initialModel env)

/-- Witness for C9 at the concrete environment and fresh model. -/
theorem C9_q_r_interception_witness :
    keyUpdate exEnv { initialModel exEnv with st := state.selectingOutput } "q"
      = .quit { initialModel exEnv with st := state.selectingOutput }
    ∧ keyUpdate exEnv { initialModel exEnv with st := state.selectingOutput } "r"
      = .cont (initialModel exEnv)
    ∧ goodVals ((keyUpdate exEnv (initialModel exEnv) "x").model) = true
    ∧ goodVals (runKeys exEnv (initialModel exEnv) ["x", "enter"]) = true :=
  ⟨C9_q_r_interception.1 exEnv _ (Or.inl rfl),
   C9_q_r_interception.2.1 exEnv _ (by intro h; exact absurd h (by decide)),
   C9_q_r_interception.2.2.1 exEnv (initialModel exEnv) "x"
     (goodVals_initialModel exEnv),
   C9_q_r_interception.2.2.2 exEnv ["x", "enter"]⟩
